import Mathlib

/-!
Verification of the spaces-ai retrieval and research subsystem.

Shallow embedding of the Python source under `search-app/app/`:
`search.py` (semantic / fulltext / hybrid RRF search, RAG), `valkey_cache.py`
(tenant cache with failure cooldown and revision counters), `agentic_research.py`
(SmartResearchAgent), `deep_research.py` (subquery split), and
`deep_research_store.py` (conversation store ownership checks), together with
the HTTP error mapping from `main.py`.

Modelling conventions:
- Python floats are modelled as exact rationals (`Rat`).
- Python ints are `Int` (unbounded, as in Python); database ids and chunk
  indices, which the system only ever creates as non-negative, are `Nat`.
- Wall-clock time (`time.monotonic()`) is passed explicitly as a rational.
- I/O (database rows, the secondary index, the cache backend, HTTP fetches,
  the LLM adapter) is passed in as explicit inputs; a raised exception is an
  `Except`/`Option` value.
- Character classes (`\w`, `str.strip`, `str.lower`) follow Python on ASCII
  input; the analysis is restricted to ASCII strings.
-/

/-- `ChunkHit` dataclass from `search.py`. -/
structure ChunkHit where
  chunk_id : Nat
  document_id : Nat
  chunk_index : Nat
  content : String
  distance : Option Rat := none
  rank : Option Rat := none
deriving DecidableEq, Repr

/-- The `_source` payload of an OpenSearch hit as read by `search.py`. -/
structure OsSource where
  doc_id : Nat
  chunk_index : Nat
  text : Option String
deriving DecidableEq, Repr

/-- An OpenSearch hit: `_source` plus optional `_score`. -/
structure OsHit where
  source : OsSource
  score : Option Rat
deriving DecidableEq, Repr

/-- `float(h.get("_score") or 0.0)`: a missing score becomes `0.0`
(and a stored `0.0` stays `0.0`, so `Option.getD` is exact). -/
def osScore (h : OsHit) : Rat := h.score.getD 0

/-- One hit of the OpenSearch branch of `semantic_search` (`search.py` lines 66-81):
synthesized `chunk_id = did * 1_000_000 + cix`, distance
`1.0 - max(0.0, min(score, 1.0)) if score > 0 else 1.0`, `rank = score`. -/
def osSemanticHit (h : OsHit) : ChunkHit :=
  let did := h.source.doc_id
  let cix := h.source.chunk_index
  let score := osScore h
  { chunk_id := did * 1000000 + cix
    document_id := did
    chunk_index := cix
    content := h.source.text.getD ""
    distance := some (if 0 < score then 1 - max 0 (min score 1) else 1)
    rank := some score }

/-- The OpenSearch branch of `semantic_search` maps `adapter.search_vector` hits. -/
def semantic_search_os (hits : List OsHit) : List ChunkHit :=
  hits.map osSemanticHit

/-- One hit of the OpenSearch branch of `fulltext_search` (`search.py` lines 134-145). -/
def osFulltextHit (h : OsHit) : ChunkHit :=
  { chunk_id := h.source.doc_id * 1000000 + h.source.chunk_index
    document_id := h.source.doc_id
    chunk_index := h.source.chunk_index
    content := h.source.text.getD ""
    distance := none
    rank := some (osScore h) }

/-- The OpenSearch branch of `fulltext_search` maps `adapter.search_bm25` hits. -/
def fulltext_search_os (hits : List OsHit) : List ChunkHit :=
  hits.map osFulltextHit

/-! ## Hybrid search (RRF merge), `search.py` lines 185-203

The Python code keeps two insertion-ordered dicts `scores` and `payload`,
keyed identically (the same key sequence is inserted into both), so they are
fused here into one association list of entries. `sorted(..., reverse=True)`
is a stable descending sort, realised here by a stable insertion sort. -/

/-- RRF weight `1.0 / (k + rank)` with `k = 60.0`. -/
def rrfWeight (rank : Nat) : Rat := 1 / (60 + (rank : Rat))

/-- One row of the fused `scores`/`payload` dicts of `hybrid_search`. -/
structure RrfEntry where
  cid : Nat
  score : Rat
  hit : ChunkHit
deriving DecidableEq, Repr

/-- Semantic loop body: `scores[cid] = scores.get(cid, 0.0) + w; payload[cid] = hit`.
A present key is updated in place (dict order preserved); a new key is appended. -/
def addSemHit : List RrfEntry → Nat → ChunkHit → List RrfEntry
  | [], rank, h => [⟨h.chunk_id, rrfWeight rank, h⟩]
  | e :: es, rank, h =>
    if e.cid = h.chunk_id then ⟨e.cid, e.score + rrfWeight rank, h⟩ :: es
    else e :: addSemHit es rank h

/-- Full-text loop body: `scores[cid] += w; payload[cid] = payload.get(cid, hit)` —
the score accumulates but an existing payload (the semantic hit) is kept. -/
def addFtsHit : List RrfEntry → Nat → ChunkHit → List RrfEntry
  | [], rank, h => [⟨h.chunk_id, rrfWeight rank, h⟩]
  | e :: es, rank, h =>
    if e.cid = h.chunk_id then ⟨e.cid, e.score + rrfWeight rank, e.hit⟩ :: es
    else e :: addFtsHit es rank h

/-- `for rank, hit in enumerate(lst, start=1)` folding an add-step. -/
def foldHits (add : List RrfEntry → Nat → ChunkHit → List RrfEntry) :
    List RrfEntry → Nat → List ChunkHit → List RrfEntry
  | es, _, [] => es
  | es, rank, h :: hs => foldHits add (add es rank h) (rank + 1) hs

/-- The fused `scores`/`payload` state after both enumeration loops. -/
def buildEntries (sem fts : List ChunkHit) : List RrfEntry :=
  foldHits addFtsHit (foldHits addSemHit [] 1 sem) 1 fts

/-- Stable descending insertion: the new element goes after every element with
a greater-or-equal score, so earlier equals stay first (Python sort stability). -/
def insertEntryDesc (x : RrfEntry) : List RrfEntry → List RrfEntry
  | [] => [x]
  | y :: ys => if x.score ≤ y.score then y :: insertEntryDesc x ys else x :: y :: ys

/-- `sorted(scores.items(), key=lambda x: x[1], reverse=True)`: a stable sort by
score descending, with ties kept in dict insertion order. -/
def sortEntriesDesc (l : List RrfEntry) : List RrfEntry :=
  l.foldl (fun acc x => insertEntryDesc x acc) []

/-- `ranked = sorted(...)[:top_k]` keeping scores alongside payloads. -/
def hybridRanked (sem fts : List ChunkHit) (top_k : Nat) : List RrfEntry :=
  (sortEntriesDesc (buildEntries sem fts)).take top_k

/-- `hybrid_search` given the two independently computed lists (both were
obtained at the same `top_k`): RRF merge, sort, truncate, project payloads. -/
def hybrid_search (sem fts : List ChunkHit) (top_k : Nat) : List ChunkHit :=
  (hybridRanked sem fts top_k).map (·.hit)

/-- Specification-side RRF sum over one list starting at a given rank. -/
def rrfSumFrom : List ChunkHit → Nat → Nat → Rat
  | [], _, _ => 0
  | h :: hs, rank, cid => (if h.chunk_id = cid then rrfWeight rank else 0) + rrfSumFrom hs (rank + 1) cid

/-- `Σ 1/(60 + rank_in_list)` over the occurrences of `cid`, ranks starting at 1. -/
def rrfSum (l : List ChunkHit) (cid : Nat) : Rat := rrfSumFrom l 1 cid

/-- Score recorded for a chunk id in the entries list (0 when absent). -/
def scoreOf : List RrfEntry → Nat → Rat
  | [], _ => 0
  | e :: es, cid => if e.cid = cid then e.score else scoreOf es cid

/-- The key sequence of the fused dict (Python dict insertion order). -/
def keysOf (es : List RrfEntry) : List Nat := es.map (·.cid)

/-! ## RAG answerer, `search.py` lines 218-257 -/

/-- Selected hit list for a (lowercased) mode string. -/
def rag_mode_hits (mode : String) (sem fts hyb : List ChunkHit) : List ChunkHit :=
  if mode = "semantic" then sem
  else if mode = "fulltext" then fts
  else hyb

/-- `context = "\n\n".join(h.content for h in hits)`. -/
def rag_context (hits : List ChunkHit) : String :=
  String.intercalate "\n\n" (hits.map (·.content))

/-- A cached RAG answer: the dict `{"answer": ..., "used_llm": ...}`. -/
structure RagCached where
  answer : String
  used_llm : Bool
deriving DecidableEq, Repr

/-- Python `str.lower` on ASCII characters. -/
def pyLower (s : String) : String := ⟨s.data.map Char.toLower⟩

/-- `rag(query, mode, top_k, ...)` with its effectful inputs made explicit:
the three retrieval results, the answer-cache lookup, and the LLM call
(`Except.error` = the dispatch raised; `.ok none` = the adapter returned None).
Returns `(answer, hits, used_llm)`; `out or context` and `bool(out)` treat an
empty string as falsy. -/
def rag (mode : String) (sem fts hyb : List ChunkHit) (cached : Option RagCached)
    (llm_out : Except Unit (Option String)) : String × List ChunkHit × Bool :=
  let hits := rag_mode_hits (pyLower mode) sem fts hyb
  let context := rag_context hits
  match cached with
  | some c => (c.answer, hits, c.used_llm)
  | none =>
    let out : Option String := match llm_out with
      | .error _ => none
      | .ok o => o
    let used_llm : Bool := match out with
      | some s => !(s == "")
      | none => false
    let answer : String := match out with
      | some s => if s == "" then context else s
      | none => context
    (answer, hits, used_llm)

/-! ## Tenant cache, `valkey_cache.py`

The module-level `_state` / `_client` pair is a `CacheState`; `time.monotonic()`
is the explicit `now`; backend availability is given per call (`ping_ok` for
client construction + `PING`, `op_ok` for the actual command). The returned
`Bool` of each operation records whether the backend was contacted. -/

/-- The relevant fields of `Settings` for the cache. `valkey_host` abstracts
whether `VALKEY_HOST` is configured non-empty. -/
structure CacheSettings where
  valkey_host : Bool
  cache_failure_threshold : Int
  cache_cooldown_seconds : Rat
deriving DecidableEq, Repr

/-- `_CacheState` plus the module-level `_client` handle. -/
structure CacheState where
  hits : Nat := 0
  misses : Nat := 0
  sets : Nat := 0
  failures : Int := 0
  last_error : Option String := none
  last_ping_ok : Bool := false
  last_ping_at : Option Rat := none
  disabled_until : Option Rat := none
  has_client : Bool := false
deriving DecidableEq, Repr

/-- `_cooldown_active()`: reports whether the cooldown is still on and, when the
deadline has passed, resets `disabled_until` and `failures` (a mutation). -/
def cooldown_check (now : Rat) (st : CacheState) : Bool × CacheState :=
  match st.disabled_until with
  | none => (false, st)
  | some d =>
    if d ≤ now then (false, { st with disabled_until := none, failures := 0 })
    else (true, st)

/-- `_record_failure(err)`. -/
def record_failure (s : CacheSettings) (now : Rat) (err : String) (st : CacheState) : CacheState :=
  let st := { st with failures := st.failures + 1, last_error := some err }
  if 0 < s.cache_failure_threshold ∧ s.cache_failure_threshold ≤ st.failures then
    { st with disabled_until := some (now + max s.cache_cooldown_seconds 1) }
  else st

/-- `_get_client()`: no host or active cooldown short-circuits; a cached client
is reused without contact; otherwise a client is built and pinged (`ping_ok`),
which is a backend contact. -/
def get_client (s : CacheSettings) (now : Rat) (ping_ok : Bool) (st : CacheState) :
    Option Unit × CacheState × Bool :=
  if !s.valkey_host then (none, st, false)
  else
    let (active, st1) := cooldown_check now st
    if active then (none, st1, false)
    else if st1.has_client then (some (), st1, false)
    else if ping_ok then
      (some (), { st1 with has_client := true, last_ping_ok := true, last_ping_at := some now,
                            failures := 0, disabled_until := none }, true)
    else (none, record_failure s now "ping failed" st1, true)

/-- `get_json(key)`: `stored` is what the backend holds under the namespaced key
(`none` = absent), `op_ok` whether the `GET` round-trip succeeds. -/
def get_json {α : Type} (s : CacheSettings) (now : Rat) (ping_ok op_ok : Bool)
    (stored : Option α) (st : CacheState) : Option α × CacheState × Bool :=
  match get_client s now ping_ok st with
  | (none, st1, c) => (none, st1, c)
  | (some _, st1, _) =>
    if op_ok then
      match stored with
      | none => (none, { st1 with misses := st1.misses + 1 }, true)
      | some v => (some v, { st1 with hits := st1.hits + 1 }, true)
    else (none, record_failure s now "backend error" st1, true)

/-- `set_json(key, value, ttl)`: only the state transition and backend contact
are modelled (the stored payload does not feed back into this development). -/
def set_json (s : CacheSettings) (now : Rat) (ping_ok op_ok : Bool) (st : CacheState) :
    CacheState × Bool :=
  match get_client s now ping_ok st with
  | (none, st1, c) => (st1, c)
  | (some _, st1, _) =>
    if op_ok then ({ st1 with sets := st1.sets + 1 }, true)
    else (record_failure s now "backend error" st1, true)

/-- `bump_revision`: `backend_rev` is the counter value held by the backend;
`INCR` either succeeds (`op_ok`) or records a failure leaving it unchanged. -/
def bump_revision (s : CacheSettings) (now : Rat) (ping_ok op_ok : Bool)
    (st : CacheState) (backend_rev : Int) : CacheState × Int × Bool :=
  match get_client s now ping_ok st with
  | (none, st1, c) => (st1, backend_rev, c)
  | (some _, st1, _) =>
    if op_ok then (st1, backend_rev + 1, true)
    else (record_failure s now "backend error" st1, backend_rev, true)

/-- `get_revision`: returns 0 with no client, on a backend error, or when the
key is absent; otherwise the stored integer. -/
def get_revision (s : CacheSettings) (now : Rat) (ping_ok op_ok : Bool)
    (stored : Option Int) (st : CacheState) : Int × CacheState × Bool :=
  match get_client s now ping_ok st with
  | (none, st1, c) => (0, st1, c)
  | (some _, st1, _) =>
    if op_ok then
      match stored with
      | none => (0, st1, true)
      | some v => (v, st1, true)
    else (0, record_failure s now "backend error" st1, true)

/-! ## Result-cache keys built in `search.py` -/

/-- Python `str.strip()` on ASCII whitespace, character-list form. -/
def pyStripChars (l : List Char) : List Char :=
  ((l.dropWhile Char.isWhitespace).reverse.dropWhile Char.isWhitespace).reverse

/-- Python `str.strip()` on ASCII strings. -/
def pyStrip (s : String) : String := ⟨pyStripChars s.data⟩

/-- How an `Optional[int]` renders inside a Python f-string. -/
def str_of_opt_int : Option Int → String
  | some n => toString n
  | none => "None"

/-- `ck = f"sem:..."` from `semantic_search` (`search.py` line 50). -/
def sem_cache_key (rev : Int) (user_id space_id : Option Int) (top_k : Int) (query : String) : String :=
  "sem:" ++ toString rev ++ ":" ++ str_of_opt_int user_id ++ ":" ++ str_of_opt_int space_id
    ++ ":" ++ toString top_k ++ ":" ++ pyLower (pyStrip query)

/-- `ck = f"fts:..."` from `fulltext_search` (`search.py` line 125). -/
def fts_cache_key (rev : Int) (user_id space_id : Option Int) (top_k : Int) (query : String) : String :=
  "fts:" ++ toString rev ++ ":" ++ str_of_opt_int user_id ++ ":" ++ str_of_opt_int space_id
    ++ ":" ++ toString top_k ++ ":" ++ pyLower (pyStrip query)

/-- Insertion step of `sorted` over strings (code-point order, as in Python). -/
def insertStr (x : String) : List String → List String
  | [] => [x]
  | y :: ys => if x ≤ y then x :: y :: ys else y :: insertStr x ys

/-- `sorted(tags)`. -/
def sortStrs (l : List String) : List String := l.foldr insertStr []

/-- The image-search cache key `":".join(key_parts)` (`search.py` lines 262-272). -/
def img_cache_key (rev : Int) (user_id space_id : Option Int) (top_k : Int)
    (query : Option String) (tags : List String) (has_vector : Bool) : String :=
  String.intercalate ":"
    [ "img", toString rev, str_of_opt_int user_id, str_of_opt_int space_id, toString top_k,
      pyLower (pyStrip (query.getD "")),
      if tags.isEmpty then "" else String.intercalate "," (sortStrs tags),
      if has_vector then "vec" else "novec" ]

/-! ## Research agent, `agentic_research.py` -/

/-- `WebHit` dataclass. -/
structure WebHit where
  title : String
  url : String
  snippet : String
deriving DecidableEq, Repr

/-- The `Settings` fields consulted by `SmartResearchAgent`. -/
structure ResearchSettings where
  deep_research_timeout_seconds : Int
  deep_research_web_top_k : Int
deriving DecidableEq, Repr

/-- `SmartResearchAgent` mutable attributes (`_deadline` is absolute time). -/
structure SmartResearchAgent where
  deadline : Rat
  web_hits : List WebHit
  confidence : Rat
  web_attempted : Bool
  web_top_k : Int
  force_web : Bool
deriving DecidableEq, Repr

/-- Python falsy-`or` on ints: `a or b` yields `b` when `a == 0`. -/
def pyOrInt (a b : Int) : Int := if a = 0 then b else a

/-- `SmartResearchAgent.__init__` at creation time `now`. -/
def agent_init (s : ResearchSettings) (max_seconds : Option Int) (web_top_k : Option Int)
    (force_web : Bool) (now : Rat) : SmartResearchAgent :=
  let t0 : Int := max_seconds.getD s.deep_research_timeout_seconds
  let timeout : Int := max 5 (min (pyOrInt t0 120) 180)
  let w0 : Int := match web_top_k with
    | some w => pyOrInt w (pyOrInt s.deep_research_web_top_k 8)
    | none => pyOrInt s.deep_research_web_top_k 8
  { deadline := now + (timeout : Rat)
    web_hits := []
    confidence := 0
    web_attempted := false
    web_top_k := max 1 w0
    force_web := force_web }

/-- Count of `{h.document_id for h in hits}` (every `document_id` is an int). -/
def uniqueDocs (hits : List ChunkHit) : Nat :=
  ((hits.map (·.document_id)).dedup).length

/-- `should_consider_web(hits)`: forced, or no hits, or heuristic `< 0.55`. -/
def should_consider_web (ag : SmartResearchAgent) (hits : List ChunkHit) : Bool :=
  if ag.force_web then true
  else if hits.isEmpty then true
  else
    let coverage : Rat := min ((hits.length : Rat) / 8) 1
    let diversity : Rat := min ((uniqueDocs hits : Rat) / 5) 1
    let distance_scores := hits.filterMap (·.distance)
    let semantic_quality : Rat :=
      match distance_scores with
      | [] => 0
      | d :: ds =>
        let best := ds.foldl min d
        if best ≤ 0 then 1 else max 0 (min 1 (1 - best))
    decide ((0.35 : Rat) * coverage + 0.35 * diversity + 0.3 * semantic_quality < 0.55)

/-- `maybe_fetch_web(query)` at call time `now`. It first sets
`web_attempted = True`, then either skips (low remaining time, not forced) or
performs the DuckDuckGo fetch, whose outcome is the explicit `fetch_result`
(`.error` = any raised exception; `.ok l` = the parsed result anchors, which
`_fetch_duckduckgo` truncates at `web_top_k`). The returned `Bool` records
whether an HTTP request was issued. -/
def maybe_fetch_web (ag : SmartResearchAgent) (now : Rat)
    (fetch_result : Except Unit (List WebHit)) : List WebHit × SmartResearchAgent × Bool :=
  let ag := { ag with web_attempted := true }
  if ag.deadline - now < 5 ∧ !ag.force_web then ([], ag, false)
  else
    match fetch_result with
    | .ok l =>
      let hits := l.take ag.web_top_k.toNat
      (hits, { ag with web_hits := hits }, true)
    | .error _ => ([], { ag with web_hits := [] }, true)

/-- `aggregate_contexts(local_contexts)`. -/
def aggregate_contexts (ag : SmartResearchAgent) (local_contexts : List String) : List String :=
  local_contexts ++ ag.web_hits.map (fun h =>
    "Web result: " ++ h.title ++ "\nURL: " ++ h.url ++ "\nSnippet: " ++ h.snippet)

/-- Round a rational to an integer, ties to even (Python `round` semantics;
the Python value is a binary float modelled here as an exact rational). -/
def roundHalfEven (q : Rat) : Int :=
  if q - (⌊q⌋ : Rat) < 1/2 then ⌊q⌋
  else if 1/2 < q - (⌊q⌋ : Rat) then ⌊q⌋ + 1
  else if ⌊q⌋ % 2 = 0 then ⌊q⌋ else ⌊q⌋ + 1

/-- Python `round(x, 2)`. -/
def pyRound2 (x : Rat) : Rat := (roundHalfEven (x * 100) : Rat) / 100

/-- `compute_confidence(local_hits)`: base formula, +0.15 when web hits are
stored, clamped to `[0.1, 0.98]`, rounded to 2 decimals, stored on the agent. -/
def compute_confidence (ag : SmartResearchAgent) (local_hits : List ChunkHit) :
    Rat × SmartResearchAgent :=
  let coverage : Rat := min ((local_hits.length : Rat) / 8) 1
  let diversity : Rat := min ((uniqueDocs local_hits : Rat) / 5) 1
  let base : Rat := 0.25 + 0.35 * coverage + 0.25 * diversity
  let base : Rat := if ag.web_hits.isEmpty then base else base + 0.15
  let conf := pyRound2 (max 0.1 (min base 0.98))
  (conf, { ag with confidence := conf })

/-- The `budget` computed at the top of `decide_web_and_contexts`:
`int(max_seconds)` when positive, else `None` (Python `int` truncates; for
positive arguments truncation is the floor). -/
def decide_budget (max_seconds : Option Rat) : Option Int :=
  match max_seconds with
  | some m => if 0 < m then some ⌊m⌋ else none
  | none => none

/-- `decide_web_and_contexts` with explicit times: the agent is created at `t0`
and `maybe_fetch_web` (when reached) runs at `t1`. Returns
`(contexts, web_hits, confidence, web_attempted)` plus the model-level flag of
whether an HTTP fetch was performed. -/
def decide_web_and_contexts (s : ResearchSettings) (local_hits : List ChunkHit)
    (local_contexts : List String) (max_seconds : Option Rat) (web_top_k : Option Int)
    (force_web : Bool) (t0 t1 : Rat) (fetch_result : Except Unit (List WebHit)) :
    List String × List WebHit × Rat × Bool × Bool :=
  let ag := agent_init s (decide_budget max_seconds) web_top_k force_web t0
  let (ag, fetched) :=
    if should_consider_web ag local_hits then
      let r := maybe_fetch_web ag t1 fetch_result
      (r.2.1, r.2.2)
    else (ag, false)
  let contexts := aggregate_contexts ag local_contexts
  let (confidence, ag) := compute_confidence ag local_hits
  (contexts, ag.web_hits, confidence, ag.web_attempted, fetched)

/-! ## Subquery split, `deep_research.py` lines 84-94

`re.split(r"\b(?:and|or|,|;|\n)\b", q, flags=re.IGNORECASE)` is modelled by a
left-to-right scanner. `\b` between two positions holds when exactly one side
is a word character (`[A-Za-z0-9_]` on ASCII input); out of bounds counts as
non-word. At each position the alternatives are mutually exclusive because
their first characters differ. -/

/-- Python `\w` on ASCII. -/
def isWordChar (c : Char) : Bool := c.isAlphanum || c = '_'

/-- Whether the character just before the scan position is a word character. -/
def prevIsWord : Option Char → Bool
  | none => false
  | some c => isWordChar c

/-- Whether the next character (head of remainder) is a word character. -/
def isNextWord : List Char → Bool
  | [] => false
  | c :: _ => isWordChar c

/-- Length of the separator matched at this position, given the previous
character: `and` (3), `or` (2) or one of `,` `;` `\n` (1), each guarded by the
word boundaries the pattern requires; `none` when nothing matches here. -/
def sepLen (prev : Option Char) (cs : List Char) : Option Nat :=
  match cs with
  | [] => none
  | c1 :: rest1 =>
    if c1.toLower = 'a' then
      match rest1 with
      | c2 :: c3 :: rest3 =>
        if c2.toLower = 'n' ∧ c3.toLower = 'd' ∧ !prevIsWord prev ∧ !isNextWord rest3 then
          some 3
        else none
      | _ => none
    else if c1.toLower = 'o' then
      match rest1 with
      | c2 :: rest2 =>
        if c2.toLower = 'r' ∧ !prevIsWord prev ∧ !isNextWord rest2 then some 2 else none
      | [] => none
    else if c1 = ',' ∨ c1 = ';' ∨ c1 = '\n' then
      if prevIsWord prev ∧ isNextWord rest1 then some 1 else none
    else none

/-- The `re.split` scanner: walk the text, close the current part at each
separator match and resume after it (the previous character then being the
separator's last character). `sepLen` only returns 1, 2 or 3, so dropping
`n - 1` from the tail consumes exactly the separator. -/
def splitGo (prev : Option Char) (cur : List Char) (acc : List Char) : List (List Char) :=
  match cur with
  | [] => [acc.reverse]
  | c :: rest =>
    match sepLen prev (c :: rest) with
    | some n => acc.reverse :: splitGo ((c :: rest).get? (n - 1)) (rest.drop (n - 1)) []
    | none => splitGo (some c) rest (c :: acc)
termination_by cur.length
decreasing_by
  · simp only [List.length_cons, List.length_drop]
    omega
  · simp only [List.length_cons]
    omega

/-- `re.split(r"\b(?:and|or|,|;|\n)\b", q, flags=re.IGNORECASE)`. -/
def pySplitSubq (q : List Char) : List (List Char) := splitGo none q []

/-- `_extract_subqueries(question)` on character lists. -/
def extract_subqueries (question : List Char) : List (List Char) :=
  let q := pyStripChars question
  if q.length < 80 then [q]
  else
    let parts := pySplitSubq q
    let subs := (parts.map pyStripChars).filter (fun p => !p.isEmpty)
    if 1 < subs.length ∧ subs.length ≤ 6 then subs.take 4 else [q]

/-! ## Conversation store, `deep_research_store.py`, and the HTTP mapping
from `main.py` (every `PermissionError` becomes the same 404 response). -/

/-- A `deep_research_conversations` row (fields used by ownership checks). -/
structure ConvRow where
  conversation_id : String
  user_id : Int
  space_id : Option Int
  title : Option String
deriving DecidableEq, Repr

/-- The store raises `PermissionError(msg)` on missing/not-owned rows. -/
inductive StoreErr where
  | permissionError (msg : String)
deriving DecidableEq, Repr

/-- `_ensure_owner(conversation_id, user_id)`. -/
def ensure_owner (db : List ConvRow) (conversation_id : String) (user_id : Int) :
    Except StoreErr (Int × Option Int) :=
  match db.find? (fun r => r.conversation_id == conversation_id) with
  | none => .error (.permissionError "conversation not found")
  | some r =>
    if r.user_id ≠ user_id then .error (.permissionError "not allowed")
    else .ok (r.user_id, r.space_id)

/-- `update_conversation_title`: the `UPDATE ... WHERE conversation_id = ? AND
user_id = ?` touches the matching rows; `rowcount == 0` raises. -/
def update_conversation_title (db : List ConvRow) (user_id : Int) (conversation_id : String)
    (title : String) : Except StoreErr (List ConvRow) :=
  let matched := db.filter (fun r => r.conversation_id == conversation_id && r.user_id == user_id)
  if matched.length = 0 then .error (.permissionError "conversation not found")
  else .ok (db.map (fun r =>
    if r.conversation_id == conversation_id && r.user_id == user_id then
      { r with title := some title }
    else r))

/-- `add_notebook_entry`: ownership check, then the insert (the created entry
is summarised by its title/content; the notebook table itself is not needed
for the ownership claim). -/
def add_notebook_entry (db : List ConvRow) (user_id : Int) (conversation_id : String)
    (title content : String) : Except StoreErr (String × String) :=
  match ensure_owner db conversation_id user_id with
  | .error e => .error e
  | .ok _ => .ok (title, content)

/-- An HTTP response as produced by the `main.py` handlers. -/
structure HttpResponse where
  status : Nat
  body : String
deriving DecidableEq, Repr

/-- `POST /api/deep-research/conversations/{...}/title` handler error mapping:
any `PermissionError` becomes `404 {"error": "conversation not found"}`. -/
def api_update_title (db : List ConvRow) (user_id : Int) (conversation_id : String)
    (title : String) : HttpResponse :=
  match update_conversation_title db user_id conversation_id title with
  | .ok _ => ⟨200, "ok"⟩
  | .error (.permissionError _) => ⟨404, "conversation not found"⟩

/-- `POST /api/deep-research/notebook/{conversation_id}` handler error mapping. -/
def api_add_notebook (db : List ConvRow) (user_id : Int) (conversation_id : String)
    (title content : String) : HttpResponse :=
  match add_notebook_entry db user_id conversation_id title content with
  | .ok _ => ⟨200, "entry"⟩
  | .error (.permissionError _) => ⟨404, "conversation not found"⟩

/-! ## Auxiliary lemmas -/

/-- Generic preservation of an entry predicate through `foldHits`. -/
theorem foldHits_pres {p : RrfEntry → Prop}
    {add : List RrfEntry → Nat → ChunkHit → List RrfEntry}
    (hadd : ∀ es r h, (∀ e ∈ es, p e) → ∀ e ∈ add es r h, p e) :
    ∀ (l : List ChunkHit) (es : List RrfEntry) (r : Nat),
      (∀ e ∈ es, p e) → ∀ e ∈ foldHits add es r l, p e := by
  intro l
  induction l with
  | nil => intro es r inv e he; exact inv e he
  | cons h hs ih => intro es r inv; exact ih _ _ (hadd es r h inv)

/-- `addSemHit` keeps the invariant that each entry is keyed by its payload. -/
theorem addSemHit_cid {es : List RrfEntry} {r : Nat} {h : ChunkHit}
    (inv : ∀ e ∈ es, e.hit.chunk_id = e.cid) :
    ∀ e ∈ addSemHit es r h, e.hit.chunk_id = e.cid := by
  induction es with
  | nil =>
    intro e he
    simp only [addSemHit, List.mem_singleton] at he
    subst he; rfl
  | cons a es ih =>
    intro e he
    simp only [addSemHit] at he
    by_cases hc : a.cid = h.chunk_id
    · rw [if_pos hc] at he
      rcases List.mem_cons.mp he with rfl | hmem
      · exact hc.symm
      · exact inv _ (List.mem_cons_of_mem _ hmem)
    · rw [if_neg hc] at he
      rcases List.mem_cons.mp he with rfl | hmem
      · exact inv _ (List.mem_cons_self _ _)
      · exact ih (fun e he => inv _ (List.mem_cons_of_mem _ he)) _ hmem

/-- `addFtsHit` keeps the invariant that each entry is keyed by its payload. -/
theorem addFtsHit_cid {es : List RrfEntry} {r : Nat} {h : ChunkHit}
    (inv : ∀ e ∈ es, e.hit.chunk_id = e.cid) :
    ∀ e ∈ addFtsHit es r h, e.hit.chunk_id = e.cid := by
  induction es with
  | nil =>
    intro e he
    simp only [addFtsHit, List.mem_singleton] at he
    subst he; rfl
  | cons a es ih =>
    intro e he
    simp only [addFtsHit] at he
    by_cases hc : a.cid = h.chunk_id
    · rw [if_pos hc] at he
      rcases List.mem_cons.mp he with rfl | hmem
      · exact inv a (List.mem_cons_self a es)
      · exact inv _ (List.mem_cons_of_mem _ hmem)
    · rw [if_neg hc] at he
      rcases List.mem_cons.mp he with rfl | hmem
      · exact inv _ (List.mem_cons_self _ _)
      · exact ih (fun e he => inv _ (List.mem_cons_of_mem _ he)) _ hmem

/-- Every merged entry is keyed by its payload hit's `chunk_id`. -/
theorem entries_cid (sem fts : List ChunkHit) :
    ∀ e ∈ buildEntries sem fts, e.hit.chunk_id = e.cid := by
  unfold buildEntries
  refine foldHits_pres (fun es r h inv => addFtsHit_cid inv) _ _ _ ?_
  refine foldHits_pres (fun es r h inv => addSemHit_cid inv) _ _ _ ?_
  intro e he
  simp at he

/-! ## Claims -/

/-- C2: with the OpenSearch backend, `semantic_search` maps each raw hit with
similarity score `s` to `distance = 1 - clamp(s, 0, 1)` (smaller is better) and
stores `rank = s`; this holds for every hit of every query result. -/
theorem os_semantic_score_mapping (hits : List OsHit) (raw : OsHit) (hmem : raw ∈ hits) :
    osSemanticHit raw ∈ semantic_search_os hits ∧
    (osSemanticHit raw).distance = some (1 - max 0 (min (osScore raw) 1)) ∧
    (osSemanticHit raw).rank = some (osScore raw) := by
  refine ⟨List.mem_map_of_mem _ hmem, ?_, rfl⟩
  simp only [osSemanticHit]
  rcases lt_or_le 0 (osScore raw) with h | h
  · rw [if_pos h]
  · rw [if_neg (not_lt.mpr h)]
    rw [min_eq_left (h.trans (by norm_num)), max_eq_left h]
    norm_num

/-- Witness for C2 at a concrete OpenSearch hit with score `2`. -/
theorem os_semantic_score_mapping_witness :
    osSemanticHit ⟨⟨1, 2, some "t"⟩, some 2⟩ ∈ semantic_search_os [⟨⟨1, 2, some "t"⟩, some 2⟩] ∧
    (osSemanticHit ⟨⟨1, 2, some "t"⟩, some 2⟩).distance =
      some (1 - max 0 (min (osScore ⟨⟨1, 2, some "t"⟩, some 2⟩) 1)) ∧
    (osSemanticHit ⟨⟨1, 2, some "t"⟩, some 2⟩).rank = some (osScore ⟨⟨1, 2, some "t"⟩, some 2⟩) :=
  os_semantic_score_mapping [⟨⟨1, 2, some "t"⟩, some 2⟩] ⟨⟨1, 2, some "t"⟩, some 2⟩
    (List.mem_singleton.mpr rfl)

/-- C3: on a RAG answer-cache miss, if the LLM dispatch raises or the adapter
returns None, `rag` returns `(context, hits, used_llm = false)` where `context`
is exactly the hit contents joined with a blank line. -/
theorem rag_llm_failure_returns_context (mode : String) (sem fts hyb : List ChunkHit)
    (llm_out : Except Unit (Option String))
    (hfail : llm_out = .error () ∨ llm_out = .ok none) :
    rag mode sem fts hyb none llm_out =
      (rag_context (rag_mode_hits (pyLower mode) sem fts hyb),
        rag_mode_hits (pyLower mode) sem fts hyb, false) ∧
    rag_context (rag_mode_hits (pyLower mode) sem fts hyb) =
      String.intercalate "\n\n" ((rag_mode_hits (pyLower mode) sem fts hyb).map (·.content)) := by
  rcases hfail with h | h <;> subst h <;> exact ⟨rfl, rfl⟩

/-- Witness for C3: a concrete hybrid-mode call with the adapter returning None. -/
theorem rag_llm_failure_witness :
    rag "hybrid" [] [] [⟨1, 1, 0, "alpha", none, none⟩] none (Except.ok none) =
      ("alpha", [⟨1, 1, 0, "alpha", none, none⟩], false) := by
  have h := rag_llm_failure_returns_context "hybrid" [] [] [⟨1, 1, 0, "alpha", none, none⟩]
    (Except.ok none) (Or.inr rfl)
  exact h.1.trans (by decide)

/-- C9: with the OpenSearch backend, both `semantic_search` and
`fulltext_search` synthesize `chunk_id = doc_id * 1_000_000 + chunk_index`;
the hybrid merge keys every entry by that `chunk_id`; and for chunk indices
below 1,000,000 the derived key identifies `(document_id, chunk_index)` pairs
exactly. -/
theorem os_chunk_id_derivation :
    (∀ h : OsHit, (osSemanticHit h).chunk_id = h.source.doc_id * 1000000 + h.source.chunk_index) ∧
    (∀ h : OsHit, (osFulltextHit h).chunk_id = h.source.doc_id * 1000000 + h.source.chunk_index) ∧
    (∀ sem fts : List ChunkHit, ∀ e ∈ buildEntries sem fts, e.hit.chunk_id = e.cid) ∧
    (∀ d1 c1 d2 c2 : Nat, c1 < 1000000 → c2 < 1000000 →
      (d1 * 1000000 + c1 = d2 * 1000000 + c2 ↔ d1 = d2 ∧ c1 = c2)) := by
  refine ⟨fun h => rfl, fun h => rfl, entries_cid, fun d1 c1 d2 c2 h1 h2 => ?_⟩
  constructor
  · intro h
    constructor <;> omega
  · rintro ⟨rfl, rfl⟩
    rfl

/-- Witness for C9 at concrete values. -/
theorem os_chunk_id_derivation_witness :
    (osSemanticHit ⟨⟨7, 42, none⟩, none⟩).chunk_id = 7 * 1000000 + 42 ∧
    (7 * 1000000 + 42 = 7 * 1000000 + 42 ↔ 7 = 7 ∧ 42 = 42) ∧
    (⟨5, rrfWeight 1, ⟨5, 1, 2, "c", none, none⟩⟩ : RrfEntry).hit.chunk_id =
      (⟨5, rrfWeight 1, ⟨5, 1, 2, "c", none, none⟩⟩ : RrfEntry).cid :=
  ⟨os_chunk_id_derivation.1 _,
   os_chunk_id_derivation.2.2.2 7 42 7 42 (by norm_num) (by norm_num),
   os_chunk_id_derivation.2.2.1 [⟨5, 1, 2, "c", none, none⟩] [] _
     (by simp [buildEntries, foldHits, addSemHit])⟩

/-- Without a configured host, `_get_client` short-circuits with no contact. -/
theorem get_client_no_host (s : CacheSettings) (now : Rat) (ping_ok : Bool) (st : CacheState)
    (hh : s.valkey_host = false) : get_client s now ping_ok st = (none, st, false) := by
  simp [get_client, hh]

/-- During an active cooldown, `_get_client` yields no client, leaves the state
unchanged and does not contact the backend. -/
theorem get_client_cooldown (s : CacheSettings) (now : Rat) (ping_ok : Bool) (st : CacheState)
    (d : Rat) (hd : st.disabled_until = some d) (hlt : now < d) :
    get_client s now ping_ok st = (none, st, false) := by
  have hcc : cooldown_check now st = (true, st) := by
    simp [cooldown_check, hd, not_le.mpr hlt]
  by_cases hh : s.valkey_host <;> simp [get_client, hh, hcc]

/-- C4: once the consecutive-failure counter reaches a positive configured
threshold, `record_failure` arms the cooldown deadline; while the cooldown is
active every `get_json` is a miss and every `set_json` a no-op, with the state
untouched and the backend never contacted; once the deadline has passed the
check resets the failure counter and clears the deadline, and the next call
(host configured) contacts the backend again. -/
theorem cache_cooldown_policy :
    (∀ (s : CacheSettings) (now : Rat) (err : String) (st : CacheState),
      0 < s.cache_failure_threshold → s.cache_failure_threshold ≤ st.failures + 1 →
      (record_failure s now err st).disabled_until = some (now + max s.cache_cooldown_seconds 1)) ∧
    (∀ (s : CacheSettings) (now : Rat) (ping_ok op_ok : Bool) (stored : Option Nat)
      (st : CacheState) (d : Rat), st.disabled_until = some d → now < d →
      get_json s now ping_ok op_ok stored st = (none, st, false) ∧
      set_json s now ping_ok op_ok st = (st, false)) ∧
    (∀ (s : CacheSettings) (now : Rat) (ping_ok op_ok : Bool) (stored : Option Nat)
      (st : CacheState) (d : Rat), st.disabled_until = some d → d ≤ now →
      (cooldown_check now st).2.failures = 0 ∧
      (cooldown_check now st).2.disabled_until = none ∧
      (s.valkey_host = true → (get_json s now ping_ok op_ok stored st).2.2 = true)) := by
  refine ⟨?_, ?_, ?_⟩
  · intro s now err st h1 h2
    unfold record_failure
    rw [if_pos ⟨h1, h2⟩]
  · intro s now ping_ok op_ok stored st d hd hlt
    by_cases hh : s.valkey_host
    · have hgc := get_client_cooldown s now ping_ok st d hd hlt
      constructor <;> simp [get_json, set_json, hgc]
    · have hgc := get_client_no_host s now ping_ok st (by simpa using hh)
      constructor <;> simp [get_json, set_json, hgc]
  · intro s now ping_ok op_ok stored st d hd hle
    have hcc : cooldown_check now st = (false, { st with disabled_until := none, failures := 0 }) := by
      simp [cooldown_check, hd, hle]
    refine ⟨by rw [hcc], by rw [hcc], fun hh => ?_⟩
    cases hcl : st.has_client <;> cases hpo : ping_ok <;> cases hop : op_ok <;>
      cases hst : stored <;> simp [get_json, get_client, hcc, hh, hcl]

/-- Witness for C4: threshold 3 reached at failure count 2+1 arms a 30 s
cooldown; a get and a set at `now = 40` inside a cooldown ending at 50 are
short-circuited; at `now = 60` the check resets and the backend is contacted. -/
theorem cache_cooldown_policy_witness :
    (record_failure ⟨true, 3, 30⟩ 100 "e" ⟨0, 0, 0, 2, none, false, none, none, false⟩).disabled_until
      = some (100 + max 30 1) ∧
    get_json ⟨true, 3, 30⟩ 40 true true (some 7) ⟨0, 0, 0, 3, none, false, none, some 50, true⟩ =
      (none, ⟨0, 0, 0, 3, none, false, none, some 50, true⟩, false) ∧
    (cooldown_check 60 ⟨0, 0, 0, 3, none, false, none, some 50, true⟩).2.failures = 0 ∧
    (get_json ⟨true, 3, 30⟩ 60 true true (some 7) ⟨0, 0, 0, 3, none, false, none, some 50, true⟩).2.2
      = true :=
  ⟨cache_cooldown_policy.1 ⟨true, 3, 30⟩ 100 "e" _ (by norm_num) (by norm_num),
   (cache_cooldown_policy.2.1 ⟨true, 3, 30⟩ 40 true true (some 7) _ 50 rfl (by norm_num)).1,
   (cache_cooldown_policy.2.2 ⟨true, 3, 30⟩ 60 true true (some 7) _ 50 rfl (by norm_num)).1,
   (cache_cooldown_policy.2.2 ⟨true, 3, 30⟩ 60 true true (some 7) _ 50 rfl (by norm_num)).2.2 rfl⟩

/-- C10: whenever the cache client is unavailable (no host, active cooldown, or
a backend error), `get_revision` returns 0 and `bump_revision` leaves the
backend counter unchanged; consequently the semantic, full-text and image
result-cache keys are built with revision 0 instead of failing the request. -/
theorem cache_degraded_revision_zero :
    ∀ (s : CacheSettings) (now : Rat) (ping_ok op_ok : Bool) (stored : Option Int)
      (st : CacheState) (backend_rev : Int) (uid sid : Option Int) (top_k : Int)
      (q : String) (iq : Option String) (tags : List String) (hv : Bool),
      (s.valkey_host = false ∨ (∃ d, st.disabled_until = some d ∧ now < d) ∨ op_ok = false) →
      (get_revision s now ping_ok op_ok stored st).1 = 0 ∧
      (bump_revision s now ping_ok op_ok st backend_rev).2.1 = backend_rev ∧
      sem_cache_key (get_revision s now ping_ok op_ok stored st).1 uid sid top_k q =
        sem_cache_key 0 uid sid top_k q ∧
      fts_cache_key (get_revision s now ping_ok op_ok stored st).1 uid sid top_k q =
        fts_cache_key 0 uid sid top_k q ∧
      img_cache_key (get_revision s now ping_ok op_ok stored st).1 uid sid top_k iq tags hv =
        img_cache_key 0 uid sid top_k iq tags hv := by
  intro s now ping_ok op_ok stored st backend_rev uid sid top_k q iq tags hv H
  have hzero : (get_revision s now ping_ok op_ok stored st).1 = 0 ∧
      (bump_revision s now ping_ok op_ok st backend_rev).2.1 = backend_rev := by
    rcases H with hh | ⟨d, hd, hlt⟩ | hop
    · have hgc := get_client_no_host s now ping_ok st hh
      constructor <;> simp [get_revision, bump_revision, hgc]
    · have hgc := get_client_cooldown s now ping_ok st d hd hlt
      constructor <;> simp [get_revision, bump_revision, hgc]
    · subst hop
      rcases hgc : get_client s now ping_ok st with ⟨cli, st1, c⟩
      cases cli <;> constructor <;> simp [get_revision, bump_revision, hgc]
  exact ⟨hzero.1, hzero.2, by rw [hzero.1], by rw [hzero.1], by rw [hzero.1]⟩

/-- Witness for C10: no host configured, concrete tenant key inputs. -/
theorem cache_degraded_revision_zero_witness :
    (get_revision ⟨false, 3, 30⟩ 0 true true (some 9) {}).1 = 0 ∧
    (bump_revision ⟨false, 3, 30⟩ 0 true true {} 9).2.1 = 9 ∧
    sem_cache_key (get_revision ⟨false, 3, 30⟩ 0 true true (some 9) {}).1 (some 1) none 10 " Q " =
      sem_cache_key 0 (some 1) none 10 " Q " ∧
    fts_cache_key (get_revision ⟨false, 3, 30⟩ 0 true true (some 9) {}).1 (some 1) none 10 " Q " =
      fts_cache_key 0 (some 1) none 10 " Q " ∧
    img_cache_key (get_revision ⟨false, 3, 30⟩ 0 true true (some 9) {}).1 (some 1) none 10
        (some "cat") ["b", "a"] true =
      img_cache_key 0 (some 1) none 10 (some "cat") ["b", "a"] true :=
  cache_degraded_revision_zero ⟨false, 3, 30⟩ 0 true true (some 9) {} 9 (some 1) none 10
    " Q " (some "cat") ["b", "a"] true (Or.inl rfl)

/-- C5 counterexample: deadline 10 s, fetch decision taken at `t1 = 6` so only
4 s remain and `force_web = false`: no HTTP fetch is performed, yet the
returned `web_attempted` flag is `true` (it is set on entry to
`maybe_fetch_web`), contradicting the claim that it is `false`. -/
theorem web_skip_counterexample :
    (agent_init ⟨120, 8⟩ (decide_budget (some 10)) none false 0).deadline - 6 < 5 ∧
    (decide_web_and_contexts ⟨120, 8⟩ [] [] (some 10) none false 0 6 (Except.ok [])).2.2.2.2
      = false ∧
    (decide_web_and_contexts ⟨120, 8⟩ [] [] (some 10) none false 0 6 (Except.ok [])).2.2.2.1
      = true := by
  have hag : agent_init ⟨120, 8⟩ (decide_budget (some 10)) none false 0 =
      ⟨10, [], 0, false, 8, false⟩ := by
    norm_num [agent_init, decide_budget, pyOrInt]
  have hsc : should_consider_web (⟨10, [], 0, false, 8, false⟩ : SmartResearchAgent) [] = true := rfl
  have hmf : maybe_fetch_web (⟨10, [], 0, false, 8, false⟩ : SmartResearchAgent) 6 (Except.ok []) =
      ([], ⟨10, [], 0, true, 8, false⟩, false) := by
    unfold maybe_fetch_web
    rw [if_pos ⟨by norm_num, rfl⟩]
  refine ⟨by rw [hag]; norm_num, ?_, ?_⟩ <;>
    simp only [decide_web_and_contexts, hag, hsc, if_true, hmf] <;> rfl

/-- C5 (amended): when the remaining time at the fetch decision is below 5 s
and `force_web` is false, no web fetch is performed during the turn and the
web-hit list is empty; however the returned `web_attempted` flag equals the
outcome of `should_consider_web` (it is set to true on entry to
`maybe_fetch_web` even when the fetch is skipped). -/
theorem web_skip_low_time (s : ResearchSettings) (local_hits : List ChunkHit)
    (local_contexts : List String) (max_seconds : Option Rat) (web_top_k : Option Int)
    (t0 t1 : Rat) (fetch_result : Except Unit (List WebHit))
    (hlow : (agent_init s (decide_budget max_seconds) web_top_k false t0).deadline - t1 < 5) :
    (decide_web_and_contexts s local_hits local_contexts max_seconds web_top_k false t0 t1
        fetch_result).2.2.2.2 = false ∧
    (decide_web_and_contexts s local_hits local_contexts max_seconds web_top_k false t0 t1
        fetch_result).2.1 = [] ∧
    (decide_web_and_contexts s local_hits local_contexts max_seconds web_top_k false t0 t1
        fetch_result).2.2.2.1 =
      should_consider_web (agent_init s (decide_budget max_seconds) web_top_k false t0)
        local_hits := by
  by_cases hsc : should_consider_web (agent_init s (decide_budget max_seconds) web_top_k false t0)
      local_hits
  · simp only [decide_web_and_contexts, hsc, if_true, maybe_fetch_web]
    rw [if_pos ⟨hlow, rfl⟩]
    refine ⟨?_, ?_, ?_⟩ <;> trivial
  · have hsc' : should_consider_web (agent_init s (decide_budget max_seconds) web_top_k false t0)
        local_hits = false := by
      cases hx : should_consider_web (agent_init s (decide_budget max_seconds) web_top_k false t0)
          local_hits
      · rfl
      · exact absurd hx hsc
    simp only [decide_web_and_contexts, hsc', Bool.false_eq_true, if_false]
    refine ⟨?_, ?_, ?_⟩ <;> trivial

/-- Witness for C5 (amended) at the concrete counterexample inputs. -/
theorem web_skip_low_time_witness :
    (decide_web_and_contexts ⟨120, 8⟩ [] [] (some 10) none false 0 6 (Except.ok [])).2.2.2.2
      = false ∧
    (decide_web_and_contexts ⟨120, 8⟩ [] [] (some 10) none false 0 6 (Except.ok [])).2.1 = [] ∧
    (decide_web_and_contexts ⟨120, 8⟩ [] [] (some 10) none false 0 6 (Except.ok [])).2.2.2.1 =
      should_consider_web (agent_init ⟨120, 8⟩ (decide_budget (some 10)) none false 0) [] :=
  web_skip_low_time ⟨120, 8⟩ [] [] (some 10) none 0 6 (Except.ok [])
    (by norm_num [agent_init, decide_budget, pyOrInt])

/-- C8 counterexample: one local hit from one document and no web hits.
The claimed value is `0.25 + 0.35/8 + 0.25/5 = 0.34375` (inside the clamp
interval), but `compute_confidence` rounds to two decimals and returns `0.34`. -/
theorem compute_confidence_counterexample :
    (compute_confidence (agent_init ⟨120, 8⟩ none none false 0) [⟨1, 1, 0, "x", none, none⟩]).1 ≠
      max 0.1 (min (0.25 + 0.35 * min ((1 : Rat) / 8) 1 + 0.25 * min ((1 : Rat) / 5) 1 + 0) 0.98) := by
  have hud : uniqueDocs [(⟨1, 1, 0, "x", none, none⟩ : ChunkHit)] = 1 := by
    simp [uniqueDocs]
  norm_num [compute_confidence, agent_init, hud, pyRound2, roundHalfEven, min_def, max_def]

/-- Helper: Python 2-decimal rounding maps `[0.1, 0.98]` into itself. -/
theorem pyRound2_bounds {x : Rat} (h1 : (1 : Rat) / 10 ≤ x) (h2 : x ≤ 98 / 100) :
    (1 : Rat) / 10 ≤ pyRound2 x ∧ pyRound2 x ≤ 98 / 100 := by
  have h1' : (10 : Rat) ≤ x * 100 := by linarith
  have h2' : x * 100 ≤ 98 := by linarith
  have hf1 : (10 : Int) ≤ ⌊x * 100⌋ := by
    rw [Int.le_floor]; exact_mod_cast h1'
  have hf1' : (10 : Rat) ≤ (⌊x * 100⌋ : Rat) := by exact_mod_cast hf1
  have hf2 : (⌊x * 100⌋ : Rat) ≤ 98 := le_trans (Int.floor_le _) h2'
  have hfl : (⌊x * 100⌋ : Rat) ≤ x * 100 := Int.floor_le _
  unfold pyRound2 roundHalfEven
  split_ifs with ha hb hc
  · constructor <;> · push_cast; linarith
  · push_neg at ha
    have h97 : (⌊x * 100⌋ : Rat) ≤ 97 + 1/2 := by linarith
    have h97r : (⌊x * 100⌋ : Rat) < 98 := lt_of_le_of_lt h97 (by norm_num)
    have h97i : ⌊x * 100⌋ < (98 : Int) := by exact_mod_cast h97r
    have h97q : (⌊x * 100⌋ : Rat) ≤ 97 := by
      have hq : ⌊x * 100⌋ ≤ (97 : Int) := by omega
      exact_mod_cast hq
    constructor <;> · push_cast; linarith
  · constructor <;> · push_cast; linarith
  · push_neg at ha
    have h97 : (⌊x * 100⌋ : Rat) ≤ 97 + 1/2 := by linarith
    have h97r : (⌊x * 100⌋ : Rat) < 98 := lt_of_le_of_lt h97 (by norm_num)
    have h97i : ⌊x * 100⌋ < (98 : Int) := by exact_mod_cast h97r
    have h97q : (⌊x * 100⌋ : Rat) ≤ 97 := by
      have hq : ⌊x * 100⌋ ≤ (97 : Int) := by omega
      exact_mod_cast hq
    constructor <;> · push_cast; linarith

/-- C8 (amended): `compute_confidence` returns
`0.25 + 0.35*coverage + 0.25*diversity + (0.15 if web hits were stored)`,
clamped to `[0.1, 0.98]` and then rounded to two decimal places; the result
still lies in `[0.1, 0.98]`. -/
theorem compute_confidence_formula (ag : SmartResearchAgent) (local_hits : List ChunkHit) :
    (compute_confidence ag local_hits).1 =
      pyRound2 (max 0.1 (min (0.25 + 0.35 * min ((local_hits.length : Rat) / 8) 1
        + 0.25 * min ((uniqueDocs local_hits : Rat) / 5) 1
        + (if ag.web_hits.isEmpty then 0 else 0.15)) 0.98)) ∧
    (1 : Rat) / 10 ≤ (compute_confidence ag local_hits).1 ∧
    (compute_confidence ag local_hits).1 ≤ 98 / 100 := by
  have hmain : (compute_confidence ag local_hits).1 =
      pyRound2 (max 0.1 (min (0.25 + 0.35 * min ((local_hits.length : Rat) / 8) 1
        + 0.25 * min ((uniqueDocs local_hits : Rat) / 5) 1
        + (if ag.web_hits.isEmpty then 0 else 0.15)) 0.98)) := by
    unfold compute_confidence
    cases hwe : ag.web_hits.isEmpty <;>
      simp only [hwe, Bool.false_eq_true, if_false, if_true] <;>
      (congr 2; ring)
  refine ⟨hmain, ?_, ?_⟩ <;> rw [hmain]
  · refine (pyRound2_bounds ?_ ?_).1
    · exact le_trans (by norm_num) (le_max_left _ _)
    · exact max_le (by norm_num) (le_trans (min_le_right _ _) (by norm_num))
  · refine (pyRound2_bounds ?_ ?_).2
    · exact le_trans (by norm_num) (le_max_left _ _)
    · exact max_le (by norm_num) (le_trans (min_le_right _ _) (by norm_num))

/-- C6 counterexample: with one conversation `"c1"` owned by user 1, user 2
adding a notebook entry to `"c1"` (exists, not owned) and to `"zz"` (missing)
gets two different store-level errors, so the two failures are not the same
error and the in-process message does reveal which case occurred. -/
theorem store_notfound_counterexample :
    add_notebook_entry [⟨"c1", 1, none, none⟩] 2 "c1" "t" "x" =
      .error (.permissionError "not allowed") ∧
    add_notebook_entry [⟨"c1", 1, none, none⟩] 2 "zz" "t" "x" =
      .error (.permissionError "conversation not found") ∧
    ("not allowed" : String) ≠ "conversation not found" := by
  refine ⟨rfl, rfl, by decide⟩

/-- C6 (amended): for the ownership-checking mutating store operations, a
missing conversation and one owned by a different user both fail with a
`PermissionError` — `update_conversation_title` with the identical message,
`add_notebook_entry` (via `_ensure_owner`) with messages that differ between
the two cases — and the HTTP layer maps every such error to the same
`404 "conversation not found"` response, so API clients cannot distinguish
the cases even though the in-process messages differ. -/
theorem store_notfound_amended (db : List ConvRow) (uid : Int) (cid : String)
    (title content : String)
    (H : ∀ r ∈ db, r.conversation_id = cid → r.user_id ≠ uid) :
    update_conversation_title db uid cid title =
      .error (.permissionError "conversation not found") ∧
    (∃ m, add_notebook_entry db uid cid title content = .error (.permissionError m)) ∧
    api_update_title db uid cid title = ⟨404, "conversation not found"⟩ ∧
    api_add_notebook db uid cid title content = ⟨404, "conversation not found"⟩ := by
  have hfilter : db.filter (fun r => r.conversation_id == cid && r.user_id == uid) = [] := by
    refine List.filter_eq_nil_iff.mpr ?_
    intro r hr
    simp only [Bool.and_eq_true, beq_iff_eq, not_and]
    intro h1 h2
    exact H r hr h1 h2
  have hupd : update_conversation_title db uid cid title =
      .error (.permissionError "conversation not found") := by
    unfold update_conversation_title
    rw [hfilter]
    rfl
  have hadd : ∃ m, add_notebook_entry db uid cid title content =
      .error (.permissionError m) := by
    unfold add_notebook_entry ensure_owner
    cases hf : db.find? (fun r => r.conversation_id == cid) with
    | none => exact ⟨"conversation not found", rfl⟩
    | some r =>
      have hcid : r.conversation_id = cid := by
        have hp := List.find?_some hf
        simpa using hp
      have hmem : r ∈ db := List.mem_of_find?_eq_some hf
      have hne : r.user_id ≠ uid := H r hmem hcid
      refine ⟨"not allowed", ?_⟩
      dsimp only
      rw [if_pos hne]
  obtain ⟨m, hm⟩ := hadd
  refine ⟨hupd, ⟨m, hm⟩, ?_, ?_⟩
  · unfold api_update_title
    rw [hupd]
  · unfold api_add_notebook
    rw [hm]

/-- Witness for C6 (amended) at the counterexample database. -/
theorem store_notfound_amended_witness :
    update_conversation_title [⟨"c1", 1, none, none⟩] 2 "c1" "t" =
      .error (.permissionError "conversation not found") ∧
    (∃ m, add_notebook_entry [⟨"c1", 1, none, none⟩] 2 "c1" "t" "x" =
      .error (.permissionError m)) ∧
    api_update_title [⟨"c1", 1, none, none⟩] 2 "c1" "t" = ⟨404, "conversation not found"⟩ ∧
    api_add_notebook [⟨"c1", 1, none, none⟩] 2 "c1" "t" "x" = ⟨404, "conversation not found"⟩ :=
  store_notfound_amended [⟨"c1", 1, none, none⟩] 2 "c1" "t" "x" (by decide)

/-- C7 counterexample: `_extract_subqueries` first strips the question, so for
the 4-character input `" hi "` it returns `["hi"]`, not the claimed `[" hi "]`. -/
theorem extract_subqueries_counterexample :
    extract_subqueries (" hi ").data = [("hi").data] ∧ (" hi ").data ≠ ("hi").data := by
  refine ⟨by decide, by decide⟩

/-- C7 (amended): `_extract_subqueries` strips the input first; when the
stripped question has fewer than 80 characters the singleton of the stripped
question is returned; otherwise the stripped question is split on the
word-boundary separator regex, the split is accepted only when it yields 2-6
non-empty stripped parts and is then capped at 4, the stripped question being
returned as a singleton in every other case; the output always has 1 to 4
elements. -/
theorem extract_subqueries_amended (question : List Char) :
    ((pyStripChars question).length < 80 →
      extract_subqueries question = [pyStripChars question]) ∧
    (80 ≤ (pyStripChars question).length →
      extract_subqueries question =
        (if 1 < (((pySplitSubq (pyStripChars question)).map pyStripChars).filter
              (fun p => !p.isEmpty)).length ∧
            (((pySplitSubq (pyStripChars question)).map pyStripChars).filter
              (fun p => !p.isEmpty)).length ≤ 6 then
          (((pySplitSubq (pyStripChars question)).map pyStripChars).filter
            (fun p => !p.isEmpty)).take 4
        else [pyStripChars question])) ∧
    1 ≤ (extract_subqueries question).length ∧ (extract_subqueries question).length ≤ 4 := by
  by_cases hlen : (pyStripChars question).length < 80
  · have hout : extract_subqueries question = [pyStripChars question] := by
      unfold extract_subqueries
      rw [if_pos hlen]
    refine ⟨fun _ => hout, fun h80 => absurd hlen (by omega), ?_, ?_⟩ <;> rw [hout] <;> simp
  · have hout : extract_subqueries question =
        (if 1 < (((pySplitSubq (pyStripChars question)).map pyStripChars).filter
              (fun p => !p.isEmpty)).length ∧
            (((pySplitSubq (pyStripChars question)).map pyStripChars).filter
              (fun p => !p.isEmpty)).length ≤ 6 then
          (((pySplitSubq (pyStripChars question)).map pyStripChars).filter
            (fun p => !p.isEmpty)).take 4
        else [pyStripChars question]) := by
      unfold extract_subqueries
      rw [if_neg hlen]
    refine ⟨fun h => absurd h hlen, fun _ => hout, ?_, ?_⟩ <;> rw [hout] <;>
      by_cases hacc : 1 < (((pySplitSubq (pyStripChars question)).map pyStripChars).filter
            (fun p => !p.isEmpty)).length ∧
          (((pySplitSubq (pyStripChars question)).map pyStripChars).filter
            (fun p => !p.isEmpty)).length ≤ 6
    · rw [if_pos hacc, List.length_take]
      omega
    · rw [if_neg hacc]
      simp
    · rw [if_pos hacc, List.length_take]
      omega
    · rw [if_neg hacc]
      simp

/-- Score bookkeeping of the semantic loop body. -/
theorem scoreOf_addSemHit (es : List RrfEntry) (r : Nat) (h : ChunkHit) (cid : Nat) :
    scoreOf (addSemHit es r h) cid =
      scoreOf es cid + (if h.chunk_id = cid then rrfWeight r else 0) := by
  induction es with
  | nil => by_cases hc : h.chunk_id = cid <;> simp [addSemHit, scoreOf, hc]
  | cons a es ih =>
    by_cases hc : a.cid = h.chunk_id
    · simp only [addSemHit, if_pos hc, scoreOf]
      by_cases hcc : a.cid = cid
      · have hhc : h.chunk_id = cid := by rw [← hc]; exact hcc
        simp [hcc, hhc]
      · have hhc : ¬(h.chunk_id = cid) := by rw [← hc]; exact hcc
        simp [hcc, hhc]
    · simp only [addSemHit, if_neg hc, scoreOf]
      by_cases hcc : a.cid = cid
      · have hhc : ¬(h.chunk_id = cid) := fun he => hc (by rw [hcc, he])
        simp [hcc, hhc]
      · simp [hcc, ih]

/-- Score bookkeeping of the full-text loop body (same scores, kept payloads). -/
theorem scoreOf_addFtsHit (es : List RrfEntry) (r : Nat) (h : ChunkHit) (cid : Nat) :
    scoreOf (addFtsHit es r h) cid =
      scoreOf es cid + (if h.chunk_id = cid then rrfWeight r else 0) := by
  induction es with
  | nil => by_cases hc : h.chunk_id = cid <;> simp [addFtsHit, scoreOf, hc]
  | cons a es ih =>
    by_cases hc : a.cid = h.chunk_id
    · simp only [addFtsHit, if_pos hc, scoreOf]
      by_cases hcc : a.cid = cid
      · have hhc : h.chunk_id = cid := by rw [← hc]; exact hcc
        simp [hcc, hhc]
      · have hhc : ¬(h.chunk_id = cid) := by rw [← hc]; exact hcc
        simp [hcc, hhc]
    · simp only [addFtsHit, if_neg hc, scoreOf]
      by_cases hcc : a.cid = cid
      · have hhc : ¬(h.chunk_id = cid) := fun he => hc (by rw [hcc, he])
        simp [hcc, hhc]
      · simp [hcc, ih]

/-- Folding the semantic loop adds the RRF partial sum to each key's score. -/
theorem scoreOf_foldSem : ∀ (l : List ChunkHit) (es : List RrfEntry) (r cid : Nat),
    scoreOf (foldHits addSemHit es r l) cid = scoreOf es cid + rrfSumFrom l r cid := by
  intro l
  induction l with
  | nil => intro es r cid; simp [foldHits, rrfSumFrom]
  | cons h hs ih =>
    intro es r cid
    simp only [foldHits, rrfSumFrom]
    rw [ih, scoreOf_addSemHit]
    ring

/-- Folding the full-text loop adds the RRF partial sum to each key's score. -/
theorem scoreOf_foldFts : ∀ (l : List ChunkHit) (es : List RrfEntry) (r cid : Nat),
    scoreOf (foldHits addFtsHit es r l) cid = scoreOf es cid + rrfSumFrom l r cid := by
  intro l
  induction l with
  | nil => intro es r cid; simp [foldHits, rrfSumFrom]
  | cons h hs ih =>
    intro es r cid
    simp only [foldHits, rrfSumFrom]
    rw [ih, scoreOf_addFtsHit]
    ring

/-- The merged score of a chunk id is exactly the claimed RRF sum over the two
lists. -/
theorem scoreOf_buildEntries (sem fts : List ChunkHit) (cid : Nat) :
    scoreOf (buildEntries sem fts) cid = rrfSum sem cid + rrfSum fts cid := by
  unfold buildEntries rrfSum
  rw [scoreOf_foldFts, scoreOf_foldSem]
  simp [scoreOf]

/-- Key evolution of the semantic loop body: update in place or append. -/
theorem keys_addSemHit (es : List RrfEntry) (r : Nat) (h : ChunkHit) :
    keysOf (addSemHit es r h) =
      if h.chunk_id ∈ keysOf es then keysOf es else keysOf es ++ [h.chunk_id] := by
  induction es with
  | nil => simp [addSemHit, keysOf]
  | cons a es ih =>
    by_cases hc : a.cid = h.chunk_id
    · simp [addSemHit, if_pos hc, keysOf, hc.symm]
    · have hne : ¬(h.chunk_id = a.cid) := fun he => hc he.symm
      simp only [addSemHit, if_neg hc, keysOf, List.map_cons]
      rw [show keysOf (addSemHit es r h) = List.map (fun e => e.cid) (addSemHit es r h) from rfl] at ih
      rw [ih]
      by_cases hm : h.chunk_id ∈ List.map (fun e => e.cid) es <;>
        simp [keysOf, hm, List.mem_cons, hne]

/-- Key evolution of the full-text loop body: update in place or append. -/
theorem keys_addFtsHit (es : List RrfEntry) (r : Nat) (h : ChunkHit) :
    keysOf (addFtsHit es r h) =
      if h.chunk_id ∈ keysOf es then keysOf es else keysOf es ++ [h.chunk_id] := by
  induction es with
  | nil => simp [addFtsHit, keysOf]
  | cons a es ih =>
    by_cases hc : a.cid = h.chunk_id
    · simp [addFtsHit, if_pos hc, keysOf, hc.symm]
    · have hne : ¬(h.chunk_id = a.cid) := fun he => hc he.symm
      simp only [addFtsHit, if_neg hc, keysOf, List.map_cons]
      rw [show keysOf (addFtsHit es r h) = List.map (fun e => e.cid) (addFtsHit es r h) from rfl] at ih
      rw [ih]
      by_cases hm : h.chunk_id ∈ List.map (fun e => e.cid) es <;>
        simp [keysOf, hm, List.mem_cons, hne]

/-- Dict keys stay distinct through either loop body. -/
theorem nodup_keys_add {add : List RrfEntry → Nat → ChunkHit → List RrfEntry}
    (hkeys : ∀ es r h, keysOf (add es r h) =
      if h.chunk_id ∈ keysOf es then keysOf es else keysOf es ++ [h.chunk_id])
    (es : List RrfEntry) (r : Nat) (h : ChunkHit) (hnd : (keysOf es).Nodup) :
    (keysOf (add es r h)).Nodup := by
  rw [hkeys]
  by_cases hm : h.chunk_id ∈ keysOf es
  · simpa [hm] using hnd
  · simp [hm, List.nodup_append, hnd]

/-- Dict keys stay distinct through a whole enumeration loop. -/
theorem nodup_keys_foldHits {add : List RrfEntry → Nat → ChunkHit → List RrfEntry}
    (hkeys : ∀ es r h, keysOf (add es r h) =
      if h.chunk_id ∈ keysOf es then keysOf es else keysOf es ++ [h.chunk_id]) :
    ∀ (l : List ChunkHit) (es : List RrfEntry) (r : Nat),
      (keysOf es).Nodup → (keysOf (foldHits add es r l)).Nodup := by
  intro l
  induction l with
  | nil => intro es r hnd; exact hnd
  | cons h hs ih => intro es r hnd; exact ih _ _ (nodup_keys_add hkeys es r h hnd)

/-- The merged dict has pairwise distinct chunk ids. -/
theorem nodup_keys_buildEntries (sem fts : List ChunkHit) :
    (keysOf (buildEntries sem fts)).Nodup := by
  unfold buildEntries
  refine nodup_keys_foldHits keys_addFtsHit _ _ _ ?_
  refine nodup_keys_foldHits keys_addSemHit _ _ _ ?_
  simp [keysOf]

/-- With distinct keys, each entry's stored score is the score of its key. -/
theorem scoreOf_mem {es : List RrfEntry} (hnd : (keysOf es).Nodup) {e : RrfEntry}
    (he : e ∈ es) : scoreOf es e.cid = e.score := by
  induction es with
  | nil => cases he
  | cons a es ih =>
    rcases List.mem_cons.mp he with rfl | hmem
    · simp [scoreOf]
    · have hnd' : (a.cid :: keysOf es).Nodup := hnd
      rcases List.nodup_cons.mp hnd' with ⟨hnotin, hnd2⟩
      have hne : ¬(a.cid = e.cid) := by
        intro heq
        exact hnotin (heq ▸ List.mem_map_of_mem (fun x => x.cid) hmem)
      simp only [scoreOf, if_neg hne]
      exact ih hnd2 hmem

/-- Stable insertion produces a permutation (one new element added). -/
theorem perm_insertEntryDesc (x : RrfEntry) (l : List RrfEntry) :
    (insertEntryDesc x l).Perm (x :: l) := by
  induction l with
  | nil => simp [insertEntryDesc]
  | cons y ys ih =>
    by_cases hc : x.score ≤ y.score
    · simp only [insertEntryDesc, if_pos hc]
      exact (ih.cons y).trans (List.Perm.swap x y ys)
    · simp [insertEntryDesc, hc]

/-- The stable descending sort permutes the dict entries. -/
theorem perm_sortEntriesDesc (l : List RrfEntry) : (sortEntriesDesc l).Perm l := by
  suffices h : ∀ acc : List RrfEntry,
      (List.foldl (fun acc x => insertEntryDesc x acc) acc l).Perm (acc ++ l) by
    simpa using h []
  induction l with
  | nil => intro acc; simp
  | cons x xs ih =>
    intro acc
    simp only [List.foldl_cons]
    exact (ih _).trans
      (((perm_insertEntryDesc x acc).append_right xs).trans List.perm_middle.symm)

/-- Stable insertion preserves descending sortedness. -/
theorem sorted_insertEntryDesc (x : RrfEntry) {l : List RrfEntry}
    (hs : l.Pairwise (fun a b => b.score ≤ a.score)) :
    (insertEntryDesc x l).Pairwise (fun a b => b.score ≤ a.score) := by
  induction l with
  | nil => simp [insertEntryDesc]
  | cons y ys ih =>
    rcases List.pairwise_cons.mp hs with ⟨hy, hys⟩
    by_cases hc : x.score ≤ y.score
    · simp only [insertEntryDesc, if_pos hc]
      refine List.pairwise_cons.mpr ⟨?_, ih hys⟩
      intro b hb
      rcases List.mem_cons.mp ((perm_insertEntryDesc x ys).mem_iff.mp hb) with rfl | hmem
      · exact hc
      · exact hy b hmem
    · simp only [insertEntryDesc, if_neg hc]
      refine List.pairwise_cons.mpr ⟨?_, hs⟩
      intro b hb
      rcases List.mem_cons.mp hb with rfl | hmem
      · exact le_of_lt (not_le.mp hc)
      · exact le_trans (hy b hmem) (le_of_lt (not_le.mp hc))

/-- The stable descending sort is sorted: scores are non-increasing. -/
theorem sorted_sortEntriesDesc (l : List RrfEntry) :
    (sortEntriesDesc l).Pairwise (fun a b => b.score ≤ a.score) := by
  suffices h : ∀ acc : List RrfEntry, acc.Pairwise (fun a b => b.score ≤ a.score) →
      (List.foldl (fun acc x => insertEntryDesc x acc) acc l).Pairwise
        (fun a b => b.score ≤ a.score) by
    exact h [] (by simp)
  induction l with
  | nil => intro acc hacc; exact hacc
  | cons x xs ih =>
    intro acc hacc
    exact ih _ (sorted_insertEntryDesc x hacc)

/-- Stability, single insertion: the subsequence of any fixed score gains the
new element at its end (the list being sorted, no equal score sits past the
insertion point). -/
theorem filter_insertEntryDesc (x : RrfEntry) {l : List RrfEntry}
    (hs : l.Pairwise (fun a b => b.score ≤ a.score)) (s : Rat) :
    (insertEntryDesc x l).filter (fun e => e.score == s) =
      if x.score = s then l.filter (fun e => e.score == s) ++ [x]
      else l.filter (fun e => e.score == s) := by
  induction l with
  | nil => by_cases hx : x.score = s <;> simp [insertEntryDesc, hx]
  | cons y ys ih =>
    rcases List.pairwise_cons.mp hs with ⟨hy, hys⟩
    by_cases hc : x.score ≤ y.score
    · simp only [insertEntryDesc, if_pos hc, List.filter_cons]
      rw [ih hys]
      by_cases hx : x.score = s <;> by_cases hyv : y.score = s <;> simp [hx, hyv]
    · have hxy : y.score < x.score := not_le.mp hc
      have hempty : (y :: ys).filter (fun e => e.score == x.score) = [] := by
        refine List.filter_eq_nil_iff.mpr ?_
        intro b hb
        have hble : b.score ≤ y.score := by
          rcases List.mem_cons.mp hb with rfl | hmem
          · exact le_refl _
          · exact hy b hmem
        simp only [beq_iff_eq]
        intro he
        rw [he] at hble
        exact absurd hble (not_le.mpr hxy)
      simp only [insertEntryDesc, if_neg hc]
      by_cases hx : x.score = s
      · subst hx
        rw [if_pos rfl, List.filter_cons_of_pos (by simp), hempty]
        rfl
      · rw [if_neg hx, List.filter_cons_of_neg (by simp [hx])]

/-- Stability of the whole sort: for every score value, the entries carrying it
appear in the sorted list exactly in their dict insertion order. -/
theorem filter_sortEntriesDesc (l : List RrfEntry) (s : Rat) :
    (sortEntriesDesc l).filter (fun e => e.score == s) =
      l.filter (fun e => e.score == s) := by
  suffices h : ∀ acc : List RrfEntry, acc.Pairwise (fun a b => b.score ≤ a.score) →
      (List.foldl (fun acc x => insertEntryDesc x acc) acc l).filter (fun e => e.score == s) =
        acc.filter (fun e => e.score == s) ++ l.filter (fun e => e.score == s) by
    simpa using h [] (by simp)
  induction l with
  | nil => intro acc hacc; simp
  | cons x xs ih =>
    intro acc hacc
    simp only [List.foldl_cons]
    rw [ih _ (sorted_insertEntryDesc x hacc), filter_insertEntryDesc x hacc s,
      List.filter_cons]
    by_cases hx : x.score = s <;> simp [hx]

/-- Both loop bodies only ever extend the key sequence. -/
theorem keys_mono_addSemHit (es : List RrfEntry) (r : Nat) (h : ChunkHit) :
    keysOf es ⊆ keysOf (addSemHit es r h) := by
  rw [keys_addSemHit]
  by_cases hm : h.chunk_id ∈ keysOf es
  · simp [hm]
  · simp only [hm, if_false]
    exact List.subset_append_left _ _

/-- Both loop bodies only ever extend the key sequence. -/
theorem keys_mono_addFtsHit (es : List RrfEntry) (r : Nat) (h : ChunkHit) :
    keysOf es ⊆ keysOf (addFtsHit es r h) := by
  rw [keys_addFtsHit]
  by_cases hm : h.chunk_id ∈ keysOf es
  · simp [hm]
  · simp only [hm, if_false]
    exact List.subset_append_left _ _

/-- Keys only grow along a whole enumeration loop. -/
theorem keys_mono_foldHits {add : List RrfEntry → Nat → ChunkHit → List RrfEntry}
    (hmono : ∀ es r h, keysOf es ⊆ keysOf (add es r h)) :
    ∀ (l : List ChunkHit) (es : List RrfEntry) (r : Nat),
      keysOf es ⊆ keysOf (foldHits add es r l) := by
  intro l
  induction l with
  | nil => intro es r a ha; exact ha
  | cons h hs ih => intro es r a ha; exact ih _ _ (hmono es r h ha)

/-- After the semantic loop, every semantic chunk id is a dict key. -/
theorem key_present_foldSem :
    ∀ (l : List ChunkHit) (es : List RrfEntry) (r : Nat) (h : ChunkHit), h ∈ l →
      h.chunk_id ∈ keysOf (foldHits addSemHit es r l) := by
  intro l
  induction l with
  | nil => intro es r h hh; cases hh
  | cons a l ih =>
    intro es r h hh
    rcases List.mem_cons.mp hh with rfl | hmem
    · have hp : h.chunk_id ∈ keysOf (addSemHit es r h) := by
        rw [keys_addSemHit]
        by_cases hm : h.chunk_id ∈ keysOf es <;> simp [hm]
      exact keys_mono_foldHits keys_mono_addSemHit l _ _ hp
    · exact ih _ _ h hmem

/-- The semantic loop body keeps every payload a semantic hit keyed by its id. -/
theorem addSemHit_payload {sem : List ChunkHit} {es : List RrfEntry} {r : Nat} {h : ChunkHit}
    (hh : h ∈ sem) (inv : ∀ e ∈ es, e.hit ∈ sem ∧ e.hit.chunk_id = e.cid) :
    ∀ e ∈ addSemHit es r h, e.hit ∈ sem ∧ e.hit.chunk_id = e.cid := by
  induction es with
  | nil =>
    intro e he
    simp only [addSemHit, List.mem_singleton] at he
    subst he
    exact ⟨hh, rfl⟩
  | cons a es ih =>
    intro e he
    simp only [addSemHit] at he
    by_cases hc : a.cid = h.chunk_id
    · rw [if_pos hc] at he
      rcases List.mem_cons.mp he with rfl | hmem
      · exact ⟨hh, hc.symm⟩
      · exact inv _ (List.mem_cons_of_mem _ hmem)
    · rw [if_neg hc] at he
      rcases List.mem_cons.mp he with rfl | hmem
      · exact inv e (List.mem_cons_self e es)
      · exact ih (fun x hx => inv x (List.mem_cons_of_mem _ hx)) e hmem

/-- After the semantic loop, every entry holds a semantic payload. -/
theorem foldSem_payload (sem : List ChunkHit) :
    ∀ (l : List ChunkHit), (∀ x ∈ l, x ∈ sem) → ∀ (es : List RrfEntry) (r : Nat),
      (∀ e ∈ es, e.hit ∈ sem ∧ e.hit.chunk_id = e.cid) →
      ∀ e ∈ foldHits addSemHit es r l, e.hit ∈ sem ∧ e.hit.chunk_id = e.cid := by
  intro l
  induction l with
  | nil => intro _ es r inv e he; exact inv e he
  | cons h hs ih =>
    intro hsub es r inv
    exact ih (fun x hx => hsub x (List.mem_cons_of_mem _ hx)) _ _
      (addSemHit_payload (hsub h (List.mem_cons_self h hs)) inv)

/-- An entry after the full-text loop body either keeps the key and payload of
an existing entry, or is new, in which case its key was absent before. -/
theorem mem_addFtsHit {es : List RrfEntry} {r : Nat} {h : ChunkHit} :
    ∀ e ∈ addFtsHit es r h,
      (∃ e' ∈ es, e.cid = e'.cid ∧ e.hit = e'.hit) ∨
        (e.cid = h.chunk_id ∧ h.chunk_id ∉ keysOf es) := by
  induction es with
  | nil =>
    intro e he
    simp only [addFtsHit, List.mem_singleton] at he
    subst he
    right
    exact ⟨rfl, by simp [keysOf]⟩
  | cons a es ih =>
    intro e he
    simp only [addFtsHit] at he
    by_cases hc : a.cid = h.chunk_id
    · rw [if_pos hc] at he
      rcases List.mem_cons.mp he with rfl | hmem
      · left
        exact ⟨a, List.mem_cons_self a es, rfl, rfl⟩
      · left
        exact ⟨e, List.mem_cons_of_mem _ hmem, rfl, rfl⟩
    · rw [if_neg hc] at he
      rcases List.mem_cons.mp he with rfl | hmem
      · left
        exact ⟨e, List.mem_cons_self e es, rfl, rfl⟩
      · rcases ih e hmem with ⟨e', he', h1, h2⟩ | ⟨h1, h2⟩
        · left
          exact ⟨e', List.mem_cons_of_mem _ he', h1, h2⟩
        · right
          refine ⟨h1, ?_⟩
          intro hmem2
          rcases List.mem_cons.mp hmem2 with heq | hker
          · exact hc heq.symm
          · exact h2 hker

/-- Through the full-text loop, an entry whose key occurs among the semantic
hits keeps a semantic payload (the `payload.get(cid, hit)` behaviour). -/
theorem foldFts_payload (sem : List ChunkHit) :
    ∀ (l : List ChunkHit) (es : List RrfEntry) (r : Nat),
      (∀ hs ∈ sem, hs.chunk_id ∈ keysOf es) →
      (∀ e ∈ es, (∃ hs ∈ sem, hs.chunk_id = e.cid) → e.hit ∈ sem ∧ e.hit.chunk_id = e.cid) →
      ∀ e ∈ foldHits addFtsHit es r l,
        (∃ hs ∈ sem, hs.chunk_id = e.cid) → e.hit ∈ sem ∧ e.hit.chunk_id = e.cid := by
  intro l
  induction l with
  | nil => intro es r _ hB e he hex; exact hB e he hex
  | cons h hs ih =>
    intro es r hA hB
    refine ih _ _ (fun x hx => keys_mono_addFtsHit es r h (hA x hx)) ?_
    intro e he hex
    rcases mem_addFtsHit e he with ⟨e', he', h1, h2⟩ | ⟨h1, h2⟩
    · have hex' : ∃ hs' ∈ sem, hs'.chunk_id = e'.cid := by
        rcases hex with ⟨x, hx1, hx2⟩
        exact ⟨x, hx1, by rw [hx2, h1]⟩
      have hres := hB e' he' hex'
      exact ⟨h2 ▸ hres.1, by rw [h2, h1]; exact hres.2⟩
    · exfalso
      rcases hex with ⟨x, hx1, hx2⟩
      refine h2 ?_
      rw [← h1, ← hx2]
      exact hA x hx1

/-- Semantic payload preference of the merged dict. -/
theorem buildEntries_payload (sem fts : List ChunkHit) :
    ∀ e ∈ buildEntries sem fts, (∃ hs ∈ sem, hs.chunk_id = e.cid) →
      e.hit ∈ sem ∧ e.hit.chunk_id = e.cid := by
  unfold buildEntries
  refine foldFts_payload sem fts _ 1 ?_ ?_
  · intro hs hmem
    exact key_present_foldSem sem [] 1 hs hmem
  · intro e he _
    exact foldSem_payload sem sem (fun x hx => hx) [] 1 (by simp) e he

/-- C1 counterexample to the claimed tie-break: semantic hit with chunk id 10,
full-text hit with chunk id 3, both at rank 1, so both score `1/61`. The code
returns the semantic-first insertion order `[10, 3]`, violating the claimed
deterministic `(score desc, chunk_id asc)` order, which would put 3 first. -/
theorem hybrid_tiebreak_counterexample :
    hybrid_search [⟨10, 1, 0, "a", none, none⟩] [⟨3, 2, 0, "b", none, none⟩] 2 =
      [⟨10, 1, 0, "a", none, none⟩, ⟨3, 2, 0, "b", none, none⟩] ∧
    (hybridRanked [⟨10, 1, 0, "a", none, none⟩] [⟨3, 2, 0, "b", none, none⟩] 2).map (·.score) =
      [rrfWeight 1, rrfWeight 1] ∧
    ¬ (hybridRanked [⟨10, 1, 0, "a", none, none⟩] [⟨3, 2, 0, "b", none, none⟩] 2).Pairwise
        (fun a b => b.score < a.score ∨ (a.score = b.score ∧ a.cid < b.cid)) := by
  have hbe : buildEntries [⟨10, 1, 0, "a", none, none⟩] [⟨3, 2, 0, "b", none, none⟩] =
      [⟨10, rrfWeight 1, ⟨10, 1, 0, "a", none, none⟩⟩,
       ⟨3, rrfWeight 1, ⟨3, 2, 0, "b", none, none⟩⟩] := by
    simp [buildEntries, foldHits, addSemHit, addFtsHit]
  have hr : hybridRanked [⟨10, 1, 0, "a", none, none⟩] [⟨3, 2, 0, "b", none, none⟩] 2 =
      [⟨10, rrfWeight 1, ⟨10, 1, 0, "a", none, none⟩⟩,
       ⟨3, rrfWeight 1, ⟨3, 2, 0, "b", none, none⟩⟩] := by
    simp [hybridRanked, hbe, sortEntriesDesc, insertEntryDesc]
  refine ⟨by simp [hybrid_search, hr], by simp [hr], ?_⟩
  rw [hr]
  intro hp
  rcases List.pairwise_cons.mp hp with ⟨hhead, _⟩
  rcases hhead _ (List.mem_singleton.mpr rfl) with hlt | ⟨_, hcid⟩
  · exact absurd hlt (lt_irrefl _)
  · exact absurd hcid (by norm_num)

/-- C1 (amended): `hybrid_search` merges the two lists (each independently
computed at `top_k`); every ranked entry's score is exactly
`Σ 1/(60 + rank_in_list)` over the lists containing its chunk id; at most
`top_k` hits are returned with non-increasing scores; whenever a chunk id
occurs in the semantic list its returned payload is a semantic hit carrying
that chunk id; and ties are broken deterministically by dict insertion order
(semantic hits in list order, then full-text hits) — for every score value the
sorted list keeps those entries in insertion order — not by ascending
chunk id. -/
theorem hybrid_rrf_amended (sem fts : List ChunkHit) (top_k : Nat) :
    (hybrid_search sem fts top_k).length ≤ top_k ∧
    (∀ e ∈ hybridRanked sem fts top_k, e.score = rrfSum sem e.cid + rrfSum fts e.cid) ∧
    (hybridRanked sem fts top_k).Pairwise (fun a b => b.score ≤ a.score) ∧
    (∀ e ∈ hybridRanked sem fts top_k, (∃ hs ∈ sem, hs.chunk_id = e.cid) →
      e.hit ∈ sem ∧ e.hit.chunk_id = e.cid) ∧
    (∀ s : Rat, (sortEntriesDesc (buildEntries sem fts)).filter (fun e => e.score == s) =
      (buildEntries sem fts).filter (fun e => e.score == s)) := by
  have hsub : ∀ e ∈ hybridRanked sem fts top_k, e ∈ buildEntries sem fts := by
    intro e he
    exact (perm_sortEntriesDesc _).mem_iff.mp (List.take_subset _ _ he)
  refine ⟨?_, ?_, ?_, ?_, fun s => filter_sortEntriesDesc _ s⟩
  · simp only [hybrid_search, List.length_map, hybridRanked, List.length_take]
    exact min_le_left _ _
  · intro e he
    rw [← scoreOf_mem (nodup_keys_buildEntries sem fts) (hsub e he), scoreOf_buildEntries]
  · exact List.Pairwise.sublist (List.take_sublist _ _) (sorted_sortEntriesDesc _)
  · intro e he hex
    exact buildEntries_payload sem fts e (hsub e he) hex

/-- Witness for C1 (amended) at the concrete two-hit merge. -/
theorem hybrid_rrf_amended_witness :
    (hybrid_search [⟨10, 1, 0, "a", none, none⟩] [⟨3, 2, 0, "b", none, none⟩] 2).length ≤ 2 ∧
    (⟨10, rrfWeight 1, ⟨10, 1, 0, "a", none, none⟩⟩ : RrfEntry).score =
      rrfSum [⟨10, 1, 0, "a", none, none⟩] 10 + rrfSum [⟨3, 2, 0, "b", none, none⟩] 10 ∧
    ((⟨10, rrfWeight 1, ⟨10, 1, 0, "a", none, none⟩⟩ : RrfEntry).hit ∈
        [(⟨10, 1, 0, "a", none, none⟩ : ChunkHit)] ∧
      (⟨10, rrfWeight 1, ⟨10, 1, 0, "a", none, none⟩⟩ : RrfEntry).hit.chunk_id =
        (⟨10, rrfWeight 1, ⟨10, 1, 0, "a", none, none⟩⟩ : RrfEntry).cid) := by
  have hm : (⟨10, rrfWeight 1, ⟨10, 1, 0, "a", none, none⟩⟩ : RrfEntry) ∈
      hybridRanked [⟨10, 1, 0, "a", none, none⟩] [⟨3, 2, 0, "b", none, none⟩] 2 := by
    simp [hybridRanked, buildEntries, foldHits, addSemHit, addFtsHit, sortEntriesDesc,
      insertEntryDesc]
  refine ⟨(hybrid_rrf_amended [⟨10, 1, 0, "a", none, none⟩] [⟨3, 2, 0, "b", none, none⟩] 2).1,
    (hybrid_rrf_amended [⟨10, 1, 0, "a", none, none⟩] [⟨3, 2, 0, "b", none, none⟩] 2).2.1 _ hm,
    (hybrid_rrf_amended [⟨10, 1, 0, "a", none, none⟩] [⟨3, 2, 0, "b", none, none⟩] 2).2.2.2.1 _ hm
      ⟨⟨10, 1, 0, "a", none, none⟩, by simp, rfl⟩⟩

/-- Witness for C7 (amended): the short branch at `" hi "` and the long branch
at a 91-character question containing a word-boundary `and`. -/
theorem extract_subqueries_amended_witness :
    extract_subqueries (" hi ").data = [pyStripChars (" hi ").data] ∧
    extract_subqueries
        ("alpha beta gamma delta epsilon zeta eta theta iota kappa and lambda mu nu xi omicron pi rho").data =
      (if 1 < (((pySplitSubq (pyStripChars ("alpha beta gamma delta epsilon zeta eta theta iota kappa and lambda mu nu xi omicron pi rho").data)).map
            pyStripChars).filter (fun p => !p.isEmpty)).length ∧
          (((pySplitSubq (pyStripChars ("alpha beta gamma delta epsilon zeta eta theta iota kappa and lambda mu nu xi omicron pi rho").data)).map
            pyStripChars).filter (fun p => !p.isEmpty)).length ≤ 6 then
        (((pySplitSubq (pyStripChars ("alpha beta gamma delta epsilon zeta eta theta iota kappa and lambda mu nu xi omicron pi rho").data)).map
          pyStripChars).filter (fun p => !p.isEmpty)).take 4
      else [pyStripChars ("alpha beta gamma delta epsilon zeta eta theta iota kappa and lambda mu nu xi omicron pi rho").data]) ∧
    1 ≤ (extract_subqueries
        ("alpha beta gamma delta epsilon zeta eta theta iota kappa and lambda mu nu xi omicron pi rho").data).length ∧
    (extract_subqueries
        ("alpha beta gamma delta epsilon zeta eta theta iota kappa and lambda mu nu xi omicron pi rho").data).length ≤ 4 :=
  ⟨(extract_subqueries_amended (" hi ").data).1 (by decide),
   (extract_subqueries_amended
      ("alpha beta gamma delta epsilon zeta eta theta iota kappa and lambda mu nu xi omicron pi rho").data).2.1
      (by decide),
   (extract_subqueries_amended
      ("alpha beta gamma delta epsilon zeta eta theta iota kappa and lambda mu nu xi omicron pi rho").data).2.2⟩
